import Mathlib

/-!
Verification of the falleando map application (src/app.js).

The file shallowly embeds the algorithmic core of the source: the
localStorage-backed visit-state store (loadState / saveState and the popup
save handler), the input clamping (clampInt), the text normalizer and the
filter pipeline (applyFilters, getSelectedSections and the section checkbox
change handler), the catalog loading and marker rendering (loadData /
renderMarkers), and the budget-constrained greedy route builder
(buildOptimizedRoute).

JavaScript numbers are modelled as exact rationals (ℚ); a value that can be
a non-finite number (NaN / ±Infinity, e.g. the result of Number(...) on a
non-numeric string) is modelled as Option ℚ with none for the non-finite
case.  The haversine distance function (distanceMeters) is transcendental,
so the route builder is embedded parametrically in the distance function;
every theorem about it holds for an arbitrary distance function and hence in
particular for the haversine one.
-/

namespace Falleando

/-- VisitState: the per-falla record stored under key `falla_<n>`, exactly the
object literal built in the popup save handler of renderMarkers
(src/app.js lines 367-372): `{visited, wish, rating_major, rating_child}`. -/
structure VisitState where
  visited : Bool
  wish : Bool
  rating_major : Int
  rating_child : Int
  deriving DecidableEq, Repr

/-- Default record used when a key is absent (src/app.js line 298):
`state[key] || { visited: false, wish: false, rating_major: 0, rating_child: 0 }`. -/
def defaultVisitState : VisitState :=
  { visited := false, wish := false, rating_major := 0, rating_child := 0 }

/-- The persisted mapping (the JSON object stored under fallas_state_v1),
modelled as an association list; the most recent binding for a key is the
authoritative one, mirroring JS object key update. -/
abbrev StateMap := List (String × VisitState)

/-- Reading `state[key]`: the value bound to the key, if present. -/
def getEntry (state : StateMap) (key : String) : Option VisitState :=
  List.lookup key state

/-- The read pattern `state[key] || defaultRecord` used by renderMarkers and
the spec-level StateStore.get: absent keys yield the default record. -/
def getState (state : StateMap) (key : String) : VisitState :=
  (getEntry state key).getD defaultVisitState

/-- The write pattern `next[key] = record` (whole-record replace) used by the
popup save handler; with association lists the new binding shadows any
older one. -/
def setState (state : StateMap) (key : String) (v : VisitState) : StateMap :=
  (key, v) :: state

/-- keyForFallaNumber (src/app.js line 21): the template `falla_${num}`,
taking the interpolated text of the number. -/
def keyForFallaNumber (num : String) : String :=
  "falla_" ++ num

/-- Math.round on a (finite) JS number: round half towards positive
infinity. -/
def jsRound (v : ℚ) : Int :=
  ⌊v + 1 / 2⌋

/-- clampInt (src/app.js lines 46-50).  `Number(n)` on the raw input is
modelled as `Option ℚ` (none = non-finite, i.e. `!Number.isFinite(v)`);
otherwise the result is `Math.max(min, Math.min(max, Math.round(v)))`. -/
def clampInt (n : Option ℚ) (lo hi fallback : Int) : Int :=
  match n with
  | none => fallback
  | some v => max lo (min hi (jsRound v))

/-- The popup save handler (src/app.js lines 365-373): read the full state,
replace the record for this key with a freshly built one whose ratings go
through clampInt(·, 0, 10, 0), and persist the whole mapping. -/
def saveClick (state : StateMap) (key : String) (visitedChecked wishChecked : Bool)
    (ratingMajorInput ratingChildInput : Option ℚ) : StateMap :=
  setState state key
    { visited := visitedChecked
      wish := wishChecked
      rating_major := clampInt ratingMajorInput 0 10 0
      rating_child := clampInt ratingChildInput 0 10 0 }

/-- The literal text of an empty JSON object, written with escaped braces. -/
def emptyJson : String :=
  "\x7b\x7d"

/-- loadState (src/app.js lines 25-31).  The localStorage cell is an
`Option String` (none = key absent, JS null); `x || "\x7b\x7d"` also replaces the
falsy empty string.  JSON.parse is a parameter returning none when it would
throw; the catch-branch turns that failure into the empty mapping, so the
embedded function is total: it never propagates a failure to the caller. -/
def loadState (item : Option String) (parse : String → Option StateMap) : StateMap :=
  let s := match item with
           | none => emptyJson
           | some str => if str = "" then emptyJson else str
  (parse s).getD []

lemma getEntry_setState_self (state : StateMap) (key : String) (v : VisitState) :
    getEntry (setState state key v) key = some v := by
  simp [getEntry, setState, List.lookup]

lemma getState_setState_self (state : StateMap) (key : String) (v : VisitState) :
    getState (setState state key v) key = v := by
  simp [getState, getEntry_setState_self]

lemma clampInt_zero_ten_mem (n : Option ℚ) :
    0 ≤ clampInt n 0 10 0 ∧ clampInt n 0 10 0 ≤ 10 := by
  cases n with
  | none => simp [clampInt]
  | some v =>
    refine ⟨le_max_left _ _, max_le (by norm_num) (min_le_left _ _)⟩

/-- C3: saving a record for an id and reading it back returns exactly the
saved record, and reading an id that was never saved returns the default
record. -/
theorem setThenGetRoundtrip (state : StateMap) (id : String) (v : VisitState) :
    getState (setState state (keyForFallaNumber id) v) (keyForFallaNumber id) = v ∧
    (getEntry state (keyForFallaNumber id) = none →
      getState state (keyForFallaNumber id) = defaultVisitState) := by
  refine ⟨getState_setState_self _ _ _, fun h => ?_⟩
  simp [getState, h]

theorem setThenGetRoundtrip_witness :
    getState (setState [] (keyForFallaNumber "1") ⟨true, false, 7, 3⟩)
        (keyForFallaNumber "1") = ⟨true, false, 7, 3⟩ ∧
    getState [] (keyForFallaNumber "999") = defaultVisitState :=
  ⟨(setThenGetRoundtrip [] "1" ⟨true, false, 7, 3⟩).1,
   (setThenGetRoundtrip [] "999" defaultVisitState).2 rfl⟩

/-- C4: whatever the inputs to the save operation, the persisted ratings are
integers in [0, 10]; a numeric 15 is clamped to 10, a numeric -3 to 0, and a
non-numeric input falls back to 0. -/
theorem ratingsAlwaysInRange (state : StateMap) (key : String) (v w : Bool)
    (m c : Option ℚ) :
    (0 ≤ (getState (saveClick state key v w m c) key).rating_major ∧
      (getState (saveClick state key v w m c) key).rating_major ≤ 10 ∧
      0 ≤ (getState (saveClick state key v w m c) key).rating_child ∧
      (getState (saveClick state key v w m c) key).rating_child ≤ 10) ∧
    clampInt (some 15) 0 10 0 = 10 ∧
    clampInt (some (-3)) 0 10 0 = 0 ∧
    clampInt none 0 10 0 = 0 := by
  refine ⟨?_, ?_, ?_, rfl⟩
  · rw [saveClick, getState_setState_self]
    exact ⟨(clampInt_zero_ten_mem m).1, (clampInt_zero_ten_mem m).2,
      (clampInt_zero_ten_mem c).1, (clampInt_zero_ten_mem c).2⟩
  · have h : jsRound 15 = 15 := by
      rw [jsRound]
      rw [show (15 : ℚ) + 1 / 2 = 31 / 2 by norm_num]
      rw [Int.floor_eq_iff]
      norm_num
    simp [clampInt, h]
  · have h : jsRound (-3) = -3 := by
      rw [jsRound]
      rw [show (-3 : ℚ) + 1 / 2 = -5 / 2 by norm_num]
      rw [Int.floor_eq_iff]
      norm_num
    simp [clampInt, h]

/-- C6: for every state of the persistence medium, loadState returns a
mapping (it is a total function: the catch-branch absorbs the failure); a
missing store and an unparseable store both yield the empty mapping. -/
theorem loadAllNeverFails (parse : String → Option StateMap)
    (hp : parse emptyJson = some []) :
    loadState none parse = [] ∧
    ∀ s : String, parse s = none → loadState (some s) parse = [] := by
  constructor
  · simp [loadState, hp]
  · intro s hs
    by_cases h : s = ""
    · simp [loadState, h, hp]
    · simp [loadState, h, hs]

/-- Stand-in for JSON.parse used to exercise loadState on concrete inputs:
it accepts exactly the empty-object text. -/
def jsonParseStub : String → Option StateMap :=
  fun s => if s = emptyJson then some [] else none

theorem loadAllNeverFails_witness :
    loadState none jsonParseStub = [] ∧ loadState (some "not json") jsonParseStub = [] :=
  ⟨(loadAllNeverFails jsonParseStub (by simp [jsonParseStub])).1,
   (loadAllNeverFails jsonParseStub (by simp [jsonParseStub])).2 "not json"
     (by simp [jsonParseStub, emptyJson])⟩

/-- Lowercasing a character as String.prototype.toLowerCase does, tabulated
for the accented letters of the catalog's repertoire on top of the ASCII
mapping. -/
def jsToLower (c : Char) : Char :=
  match c with
  | 'Á' => 'á' | 'É' => 'é' | 'Í' => 'í' | 'Ó' => 'ó' | 'Ú' => 'ú'
  | 'Ü' => 'ü' | 'Ñ' => 'ñ' | 'Ç' => 'ç'
  | _ => c.toLower

/-- The combined effect of normalize("NFD") followed by removing
\p{Diacritic} characters on a precomposed Latin letter: the letter is
replaced by its base letter.  Tabulated for the repertoire that occurs in
the catalog; other characters pass through unchanged. -/
def stripDiacritic (c : Char) : Char :=
  match c with
  | 'á' => 'a' | 'é' => 'e' | 'í' => 'i' | 'ó' => 'o' | 'ú' => 'u'
  | 'ü' => 'u' | 'ñ' => 'n' | 'ç' => 'c'
  | 'à' => 'a' | 'è' => 'e' | 'ì' => 'i' | 'ò' => 'o' | 'ù' => 'u'
  | 'â' => 'a' | 'ê' => 'e' | 'î' => 'i' | 'ô' => 'o' | 'û' => 'u'
  | 'ä' => 'a' | 'ë' => 'e' | 'ï' => 'i' | 'ö' => 'o'
  | _ => c

/-- normalize (src/app.js lines 38-44): toString (the fields are modelled as
the strings they interpolate to), toLowerCase, NFD, then removal of
diacritic marks. -/
def normalize (s : String) : String :=
  String.mk ((s.data.map jsToLower).map stripDiacritic)

/-- JS String.prototype.includes: substring test. -/
def jsIncludes (hay q : String) : Bool :=
  decide (q.data <:+: hay.data)

/-- A raw catalog record as it arrives from /data/fallas.json.  Field values
are modelled by the text they interpolate to in template strings; numeric
parsing of a field is a separate step (the `num` parameter below, modelling
JS Number() with none for a non-finite result, covering missing and
non-numeric fields). -/
structure RawFalla where
  falla_number : String
  name : String
  «section» : String
  lat : String
  lng : String
  deriving DecidableEq, Repr

/-- loadData (src/app.js lines 459-464): fetch /data/fallas.json and assign
the parsed array to allFallas unchanged; no record is filtered out at load
time.  (A failed fetch aborts startup; the claims below concern the success
path.) -/
def loadData (parsed : List RawFalla) : List RawFalla :=
  parsed

/-- JS String.prototype.replace with a plain string pattern: replace only
the first occurrence. -/
def replFirst (pat rep : List Char) : List Char → List Char
  | [] => if pat.isPrefixOf ([] : List Char) then rep else []
  | c :: cs =>
    if pat.isPrefixOf (c :: cs) then rep ++ (c :: cs).drop pat.length
    else c :: replFirst pat rep cs

def jsReplaceFirst (s pat rep : String) : String :=
  String.mk (replFirst pat.data rep.data s.data)

/-- The data recorded for a rendered marker: the parsed coordinates (what
marker.getLatLng() later returns when a route is built) together with the
fields pushed onto the markers array (src/app.js line 387). -/
structure MarkerEntry where
  lat : ℚ
  lng : ℚ
  falla_number : ℚ
  «section» : String
  deriving DecidableEq, Repr

/-- One iteration of the renderMarkers loop (src/app.js lines 289-295 and
351-388): parse lat and lng after replacing a decimal comma by a dot, skip
the record if either is non-finite, parse the id and skip if non-finite,
otherwise create the marker. -/
def markerFromRecord (num : String → Option ℚ) (f : RawFalla) : Option MarkerEntry :=
  match num (jsReplaceFirst f.lat "," "."), num (jsReplaceFirst f.lng "," "."),
      num f.falla_number with
  | some la, some ln, some n =>
    some { lat := la, lng := ln, falla_number := n, «section» := f.«section» }
  | _, _, _ => none

/-- renderMarkers (src/app.js lines 282-392), restricted to the data it
produces: the markers array, one entry per record that passes the
finite-coordinates and numeric-id checks. -/
def renderMarkers (num : String → Option ℚ) (fallas : List RawFalla) : List MarkerEntry :=
  fallas.filterMap (markerFromRecord num)

/-- The value of getSelectedSections: either the string "ALL" or an array of
section labels. -/
inductive SectionSel where
  | all : SectionSel
  | chosen (secs : List String) : SectionSel
  deriving DecidableEq, Repr

/-- getSelectedSections (src/app.js lines 266-273) over the section
checkboxes, each modelled as a (data-section label, checked) pair. -/
def getSelectedSections (cbs : List (String × Bool)) : SectionSel :=
  if cbs.length = 0 then SectionSel.all
  else
    let selected := (cbs.filter (fun cb => cb.2)).map (fun cb => cb.1)
    if selected.length = cbs.length then SectionSel.all
    else SectionSel.chosen selected

/-- The checkbox-change handler installed by buildSectionFilter (src/app.js
lines 239-256), restricted to its effect on the checkboxes: if no section is
left checked, every checkbox is re-checked, coercing the selection back to
"all". -/
def sectionChangeHandler (cbs : List (String × Bool)) : List (String × Bool) :=
  let noneChecked := cbs.all (fun cb => !cb.2)
  if noneChecked then cbs.map (fun cb => (cb.1, true)) else cbs

/-- The status predicate of applyFilters (src/app.js lines 441-451):
visited and wish are read from the persisted record for the key built from
the raw id field, missing records counting as false. -/
def statusPass (state : StateMap) (statusFilter : String) (f : RawFalla) : Bool :=
  let key := keyForFallaNumber f.falla_number
  let visited := match getEntry state key with
                 | some st => st.visited
                 | none => false
  let wish := match getEntry state key with
              | some st => st.wish
              | none => false
  if statusFilter = "VISITED" then visited
  else if statusFilter = "NOT_VISITED" then !visited
  else if statusFilter = "WISH" then wish
  else true

/-- The search haystack of applyFilters (src/app.js line 434): the
normalized interpolation of name, id and section separated by spaces. -/
def textHaystack (f : RawFalla) : String :=
  normalize (f.name ++ " " ++ f.falla_number ++ " " ++ f.«section»)

/-- applyFilters (src/app.js lines 417-456), restricted to the filtered list
it computes: the section filter (skipped when the selection is "ALL"), then
the text filter (skipped when the normalized query is empty), then the
status filter (skipped when the status is "ALL"). -/
def applyFilters (allFallas : List RawFalla) (textInput : String)
    (statusFilter : String) (selectedSections : SectionSel) (state : StateMap) :
    List RawFalla :=
  let q := normalize textInput
  let afterSections :=
    match selectedSections with
    | SectionSel.all => allFallas
    | SectionSel.chosen secs => allFallas.filter (fun f => secs.contains f.«section»)
  let afterText :=
    if q = "" then afterSections
    else afterSections.filter (fun f => jsIncludes (textHaystack f) q)
  if statusFilter = "ALL" then afterText
  else afterText.filter (statusPass state statusFilter)

lemma statusPass_not_visited (state : StateMap) (f : RawFalla) :
    statusPass state "NOT_VISITED" f = !(statusPass state "VISITED" f) := by
  simp [statusPass]

lemma filterMap_filter_isSome {α β : Type} (g : α → Option β) (l : List α) :
    (l.filter (fun a => (g a).isSome)).filterMap g = l.filterMap g := by
  induction l with
  | nil => rfl
  | cons a l ih =>
    cases hga : g a with
    | none => simp [List.filter_cons, List.filterMap_cons, hga, ih]
    | some b => simp [List.filter_cons, List.filterMap_cons, hga, ih]

/-- C5 counterexample: a record whose id does not parse to a number is not
excluded by loadData; it is still present in the list loadData produces,
even though it can never yield a marker. -/
theorem malformedPresentAfterLoad_cex :
    ({ falla_number := "unknown", name := "Nc", «section» := "E",
       lat := "39.47", lng := "-0.37" } : RawFalla) ∈
      loadData [{ falla_number := "unknown", name := "Nc", «section» := "E",
                  lat := "39.47", lng := "-0.37" }] ∧
    markerFromRecord
      (fun s => if s = "39.47" then some (3947 / 100)
                else if s = "-0.37" then some (-37 / 100)
                else if s = "1" then some 1 else none)
      { falla_number := "unknown", name := "Nc", «section» := "E",
        lat := "39.47", lng := "-0.37" } = none := by
  exact ⟨by simp [loadData], by decide⟩

/-- C5 amended: malformed records are excluded at marker-rendering time
rather than at load time: loadData keeps every raw record in the in-memory
list, but renderMarkers creates no marker from a record with non-finite
coordinates or a missing/non-numeric id -- the rendered markers are
unchanged if every malformed record is dropped, and appending a malformed
record renders nothing new. -/
theorem malformedExcludedAtRender (num : String → Option ℚ) (fallas : List RawFalla) :
    loadData fallas = fallas ∧
    renderMarkers num fallas =
      renderMarkers num (fallas.filter (fun f => (markerFromRecord num f).isSome)) ∧
    ∀ f : RawFalla, markerFromRecord num f = none →
      renderMarkers num (fallas ++ [f]) = renderMarkers num fallas := by
  refine ⟨rfl, (filterMap_filter_isSome _ _).symm, fun f hf => ?_⟩
  simp [renderMarkers, List.filterMap_append, hf]

/-- Stand-in for JS Number() used to exercise the catalog pipeline on
concrete records. -/
def numStub : String → Option ℚ :=
  fun s => if s = "39.47" then some (3947 / 100)
           else if s = "-0.37" then some (-37 / 100)
           else if s = "1" then some 1 else none

/-- Sample records used by the concrete instantiations below. -/
def fA : RawFalla :=
  { falla_number := "1", name := "Na", «section» := "E", lat := "39,47", lng := "-0.37" }

def fB : RawFalla :=
  { falla_number := "2", name := "Nb", «section» := "1A", lat := "39.47", lng := "-0.37" }

def badFalla : RawFalla :=
  { falla_number := "unknown", name := "Nc", «section» := "E", lat := "39.47", lng := "-0.37" }

theorem malformedExcludedAtRender_witness :
    loadData [fA] = [fA] ∧
    renderMarkers numStub [fA] =
      renderMarkers numStub ([fA].filter (fun f => (markerFromRecord numStub f).isSome)) ∧
    renderMarkers numStub ([fA] ++ [badFalla]) = renderMarkers numStub [fA] :=
  ⟨(malformedExcludedAtRender numStub [fA]).1,
   (malformedExcludedAtRender numStub [fA]).2.1,
   (malformedExcludedAtRender numStub [fA]).2.2 badFalla (by decide)⟩

/-- C7: with the catalog, text criterion, section selection and persisted
state fixed, the VISITED result and the NOT_VISITED result are disjoint and
together are a permutation of the ALL result. -/
theorem statusVisitedPartition (l : List RawFalla) (t : String) (sel : SectionSel)
    (st : StateMap) :
    (applyFilters l t "VISITED" sel st ++ applyFilters l t "NOT_VISITED" sel st).Perm
      (applyFilters l t "ALL" sel st) ∧
    ∀ f, f ∈ applyFilters l t "VISITED" sel st →
      f ∉ applyFilters l t "NOT_VISITED" sel st := by
  simp only [applyFilters, reduceIte]
  constructor
  · rw [List.filter_congr (fun x _ => statusPass_not_visited st x)]
    exact List.filter_append_perm _ _
  · intro f h1 h2
    have hv := (List.mem_filter.mp h1).2
    have hnv := (List.mem_filter.mp h2).2
    rw [statusPass_not_visited, hv] at hnv
    simp at hnv

/-- Persisted state marking falla 1 as visited, for concrete checks. -/
def stW : StateMap :=
  setState [] (keyForFallaNumber "1")
    { visited := true, wish := false, rating_major := 0, rating_child := 0 }

theorem statusVisitedPartition_witness :
    (applyFilters [fA, fB] "" "VISITED" SectionSel.all stW ++
        applyFilters [fA, fB] "" "NOT_VISITED" SectionSel.all stW).Perm
      (applyFilters [fA, fB] "" "ALL" SectionSel.all stW) ∧
    fA ∉ applyFilters [fA, fB] "" "NOT_VISITED" SectionSel.all stW :=
  ⟨(statusVisitedPartition [fA, fB] "" SectionSel.all stW).1,
   (statusVisitedPartition [fA, fB] "" SectionSel.all stW).2 fA (by decide)⟩

/-- C8: an entity passes the text stage (other criteria unconstrained) if
and only if the normalized query is empty or the normalized query occurs as
a substring of the normalized concatenation of name, id and section. -/
theorem textPredicateIff (l : List RawFalla) (t : String) (f : RawFalla) :
    f ∈ applyFilters l t "ALL" SectionSel.all [] ↔
      f ∈ l ∧ (normalize t = "" ∨ (normalize t).data <:+: (textHaystack f).data) := by
  simp only [applyFilters, reduceIte]
  by_cases h : normalize t = ""
  · simp [h]
  · simp [h, jsIncludes, List.mem_filter]

theorem textPredicateIff_witness :
    fA ∈ applyFilters [fA, fB] "na" "ALL" SectionSel.all [] ↔
      fA ∈ [fA, fB] ∧
        (normalize "na" = "" ∨ (normalize "na").data <:+: (textHaystack fA).data) :=
  textPredicateIff [fA, fB] "na" fA

/-- C9: when the user has deselected every section, the change handler
coerces the selection back to "all", so the resulting selection is the
"ALL" sentinel and filtering with it is identical to filtering with all
sections selected. -/
theorem emptySelectionCoercedToAll (cbs : List (String × Bool))
    (h : cbs.all (fun cb => !cb.2) = true)
    (catalog : List RawFalla) (t status : String) (st : StateMap) :
    getSelectedSections (sectionChangeHandler cbs) = SectionSel.all ∧
    applyFilters catalog t status (getSelectedSections (sectionChangeHandler cbs)) st =
      applyFilters catalog t status SectionSel.all st := by
  have hlen : ∀ ds : List (String × Bool),
      ((ds.map (fun cb => (cb.1, true))).filter (fun cb => cb.2)).length = ds.length := by
    intro ds
    induction ds with
    | nil => rfl
    | cons d ds ih => simp [List.filter_cons, ih]
  have h1 : getSelectedSections (sectionChangeHandler cbs) = SectionSel.all := by
    simp only [sectionChangeHandler, h, if_true]
    cases cbs with
    | nil => simp [getSelectedSections]
    | cons c cs => simp [getSelectedSections, hlen]
  exact ⟨h1, by rw [h1]⟩

def cbsW : List (String × Bool) :=
  [("1A", false), ("E", false)]

theorem emptySelectionCoercedToAll_witness :
    getSelectedSections (sectionChangeHandler cbsW) = SectionSel.all ∧
    applyFilters [fA] "" "ALL" (getSelectedSections (sectionChangeHandler cbsW)) [] =
      applyFilters [fA] "" "ALL" SectionSel.all [] :=
  ⟨(emptySelectionCoercedToAll cbsW (by decide) [fA] "" "ALL" []).1,
   (emptySelectionCoercedToAll cbsW (by decide) [fA] "" "ALL" []).2⟩

/-- The inner best-candidate scan of buildOptimizedRoute (src/app.js lines
502-511): walk the remaining list keeping the index and distance of the
closest candidate seen so far, updating only on strictly smaller distance,
so ties keep the earlier candidate.  In the source bestDist starts at
Infinity and the candidate at index 0 always replaces it; with (finite)
rational distances this is the same as starting from index 0's distance. -/
def findBestAux {P : Type} (d : P → ℚ) : List P → Nat → Nat × ℚ → Nat × ℚ
  | [], _, best => best
  | p :: ps, i, best =>
    findBestAux d ps (i + 1) (if d p < best.2 then (i, d p) else best)

def findBest {P : Type} (d : P → ℚ) (p : P) (ps : List P) : Nat × ℚ :=
  findBestAux d ps 1 (0, d p)

lemma findBestAux_idx_lt {P : Type} (d : P → ℚ) :
    ∀ (ps : List P) (i : Nat) (b : Nat × ℚ), b.1 < i →
      (findBestAux d ps i b).1 < i + ps.length := by
  intro ps
  induction ps with
  | nil =>
    intro i b hb
    simpa [findBestAux] using hb
  | cons p ps ih =>
    intro i b hb
    simp only [findBestAux, List.length_cons]
    by_cases hd : d p < b.2
    · rw [if_pos hd]
      have h2 := ih (i + 1) (i, d p) (Nat.lt_succ_self i)
      omega
    · rw [if_neg hd]
      have h2 := ih (i + 1) b (Nat.lt_succ_of_lt hb)
      omega

lemma findBest_idx_lt {P : Type} (d : P → ℚ) (p : P) (ps : List P) :
    (findBest d p ps).1 < ps.length + 1 := by
  have := findBestAux_idx_lt d ps 1 (0, d p) Nat.one_pos
  rw [findBest]
  omega

lemma findBestAux_spec {P : Type} (d : P → ℚ) :
    ∀ (ps : List P) (i : Nat) (b : Nat × ℚ), b.1 < i →
      (findBestAux d ps i b = b ∨
        ∃ k, k < ps.length ∧ (findBestAux d ps i b).1 = i + k ∧
          ∀ x : P, (findBestAux d ps i b).2 = d (ps.getD k x)) ∧
      (findBestAux d ps i b).2 ≤ b.2 ∧
      (∀ (k : Nat) (x : P), k < ps.length → (findBestAux d ps i b).2 ≤ d (ps.getD k x)) ∧
      ((findBestAux d ps i b).1 ≠ b.1 → (findBestAux d ps i b).2 < b.2) ∧
      (∀ (k : Nat) (x : P), k < ps.length → i + k < (findBestAux d ps i b).1 →
        (findBestAux d ps i b).2 < d (ps.getD k x)) := by
  intro ps
  induction ps with
  | nil =>
    intro i b hb
    simp [findBestAux]
  | cons p ps ih =>
    intro i b hb
    by_cases hd : d p < b.2
    · have hstep : findBestAux d (p :: ps) i b = findBestAux d ps (i + 1) (i, d p) := by
        simp only [findBestAux]
        rw [if_pos hd]
      obtain ⟨HA, HB, HC, HD, HE⟩ := ih (i + 1) (i, d p) (Nat.lt_succ_self i)
      rw [hstep]
      refine ⟨?_, ?_, ?_, ?_, ?_⟩
      · rcases HA with h | ⟨k, hk, h1, h2⟩
        · right
          exact ⟨0, by simp, by rw [h]; simp, fun x => by rw [h]; simp⟩
        · right
          refine ⟨k + 1, by simpa using hk, by rw [h1]; omega, fun x => ?_⟩
          rw [List.getD_cons_succ]
          exact h2 x
      · exact le_of_lt (lt_of_le_of_lt HB hd)
      · intro k x hk
        cases k with
        | zero =>
          rw [List.getD_cons_zero]
          exact HB
        | succ k' =>
          rw [List.getD_cons_succ]
          exact HC k' x (by simp only [List.length_cons] at hk; omega)
      · intro _
        exact lt_of_le_of_lt HB hd
      · intro k x hk hik
        cases k with
        | zero =>
          rw [List.getD_cons_zero]
          apply HD
          show (findBestAux d ps (i + 1) (i, d p)).1 ≠ i
          omega
        | succ k' =>
          rw [List.getD_cons_succ]
          exact HE k' x (by simp only [List.length_cons] at hk; omega) (by omega)
    · have hstep : findBestAux d (p :: ps) i b = findBestAux d ps (i + 1) b := by
        simp only [findBestAux]
        rw [if_neg hd]
      obtain ⟨HA, HB, HC, HD, HE⟩ := ih (i + 1) b (Nat.lt_succ_of_lt hb)
      rw [hstep]
      have hple : b.2 ≤ d p := le_of_not_lt hd
      refine ⟨?_, HB, ?_, HD, ?_⟩
      · rcases HA with h | ⟨k, hk, h1, h2⟩
        · exact Or.inl h
        · right
          refine ⟨k + 1, by simpa using hk, by rw [h1]; omega, fun x => ?_⟩
          rw [List.getD_cons_succ]
          exact h2 x
      · intro k x hk
        cases k with
        | zero =>
          rw [List.getD_cons_zero]
          exact le_trans HB hple
        | succ k' =>
          rw [List.getD_cons_succ]
          exact HC k' x (by simp only [List.length_cons] at hk; omega)
      · intro k x hk hik
        cases k with
        | zero =>
          rw [List.getD_cons_zero]
          exact lt_of_lt_of_le (HD (by omega)) hple
        | succ k' =>
          rw [List.getD_cons_succ]
          exact HE k' x (by simp only [List.length_cons] at hk; omega) (by omega)

/-- The while-loop of buildOptimizedRoute (src/app.js lines 501-521).  The
loop removes one candidate per iteration, so its iteration count is bounded
by the initial candidate count; that bound is passed as a first argument to
make the recursion structural, and buildOptimizedRoute instantiates it with
the length of the list, so the bounded branch is never taken.  The budget
test mirrors `Number.isFinite(maxMeters) && maxMeters > 0` -- with rational
arithmetic the finiteness conjunct is always true -- followed by the cutoff
`usedMeters + bestDist > maxMeters`. -/
def routeGo {P : Type} (dist : P → P → ℚ) (maxMeters : ℚ) :
    Nat → List P → P → ℚ → List P → List P × ℚ
  | _, [], _, used, route => (route, used)
  | 0, _ :: _, _, used, route => (route, used)
  | fuel + 1, p :: ps, current, used, route =>
    let best := findBest (dist current) p ps
    if 0 < maxMeters ∧ used + best.2 > maxMeters then (route, used)
    else
      routeGo dist maxMeters fuel ((p :: ps).eraseIdx best.1)
        ((p :: ps).getD best.1 p) (used + best.2)
        (route ++ [(p :: ps).getD best.1 p])

/-- buildOptimizedRoute (src/app.js lines 494-524): greedy nearest-neighbour
route construction with budget cutoff, parametric in the distance
function. -/
def buildOptimizedRoute {P : Type} (dist : P → P → ℚ) (origin : P) (points : List P)
    (maxMeters : ℚ) : List P × ℚ :=
  routeGo dist maxMeters points.length points origin 0 []

lemma routeGo_used_le {P : Type} (dist : P → P → ℚ) (maxMeters : ℚ)
    (hpos : 0 < maxMeters) :
    ∀ (fuel : Nat) (remaining : List P) (current : P) (used : ℚ) (route : List P),
      used ≤ maxMeters →
      (routeGo dist maxMeters fuel remaining current used route).2 ≤ maxMeters := by
  intro fuel
  induction fuel with
  | zero =>
    intro remaining current used route h
    cases remaining <;> simpa [routeGo] using h
  | succ n ih =>
    intro remaining current used route h
    cases remaining with
    | nil => simpa [routeGo] using h
    | cons p ps =>
      simp only [routeGo]
      by_cases hc : 0 < maxMeters ∧ used + (findBest (dist current) p ps).2 > maxMeters
      · rw [if_pos hc]
        exact h
      · rw [if_neg hc]
        push_neg at hc
        exact ih _ _ _ _ (hc hpos)

/-- C1: for a (finite) positive budget, the cumulative leg distance of the
returned route never exceeds the budget; and at any step where the best
next leg would push the cumulative sum past the budget the loop stops
unchanged -- the candidate is not included, wholly or in part. -/
theorem routeRespectsBudget {P : Type} (dist : P → P → ℚ) (origin : P)
    (points : List P) (maxMeters : ℚ) (hpos : 0 < maxMeters) :
    (buildOptimizedRoute dist origin points maxMeters).2 ≤ maxMeters ∧
    ∀ (fuel : Nat) (p : P) (ps : List P) (current : P) (used : ℚ) (route : List P),
      used + (findBest (dist current) p ps).2 > maxMeters →
      routeGo dist maxMeters (fuel + 1) (p :: ps) current used route = (route, used) := by
  constructor
  · exact routeGo_used_le dist maxMeters hpos _ _ _ _ _ (le_of_lt hpos)
  · intro fuel p ps current used route hover
    simp only [routeGo]
    rw [if_pos ⟨hpos, hover⟩]

theorem routeRespectsBudget_witness :
    (0 : ℚ) < 3 ∧
    (buildOptimizedRoute (fun a b : ℚ => (b - a) * (b - a)) 0 [2, 1, 1, 3] 3).2 ≤ 3 ∧
    routeGo (fun a b : ℚ => (b - a) * (b - a)) 3 1 [5] 0 2 [] = ([], 2) :=
  ⟨by norm_num,
   (routeRespectsBudget (fun a b : ℚ => (b - a) * (b - a)) 0 [2, 1, 1, 3] 3
     (by norm_num)).1,
   (routeRespectsBudget (fun a b : ℚ => (b - a) * (b - a)) 0 [2, 1, 1, 3] 3
     (by norm_num)).2 0 5 [] 0 2 [] (by norm_num [findBest, findBestAux])⟩

/-- C2: at every step of the route builder (any current position, any
nonempty remaining list), the scanned best candidate sits at an index of
minimum distance from the current position, every strictly earlier index
holds a strictly greater distance (deterministic, stable tie-break), and
when the budget does not force a stop the loop continues exactly with that
candidate: it is removed from the remaining list, appended to the route,
its leg is added to the total, and it becomes the current position. -/
theorem greedyStableSelection {P : Type} (dist : P → P → ℚ) (maxMeters : ℚ)
    (fuel : Nat) (current : P) (used : ℚ) (route : List P) (p : P) (ps : List P) :
    (findBest (dist current) p ps).1 < (p :: ps).length ∧
    (findBest (dist current) p ps).2 =
      dist current ((p :: ps).getD (findBest (dist current) p ps).1 p) ∧
    (∀ i : Nat, i < (p :: ps).length →
      (findBest (dist current) p ps).2 ≤ dist current ((p :: ps).getD i p)) ∧
    (∀ i : Nat, i < (findBest (dist current) p ps).1 →
      (findBest (dist current) p ps).2 < dist current ((p :: ps).getD i p)) ∧
    (¬(0 < maxMeters ∧ used + (findBest (dist current) p ps).2 > maxMeters) →
      routeGo dist maxMeters (fuel + 1) (p :: ps) current used route =
        routeGo dist maxMeters fuel
          ((p :: ps).eraseIdx (findBest (dist current) p ps).1)
          ((p :: ps).getD (findBest (dist current) p ps).1 p)
          (used + (findBest (dist current) p ps).2)
          (route ++ [(p :: ps).getD (findBest (dist current) p ps).1 p])) := by
  obtain ⟨HA, HB, HC, HD, HE⟩ :=
    findBestAux_spec (dist current) ps 1 (0, dist current p) Nat.one_pos
  have hidx := findBest_idx_lt (dist current) p ps
  refine ⟨by simpa using hidx, ?_, ?_, ?_, ?_⟩
  · show (findBestAux (dist current) ps 1 (0, dist current p)).2 =
      dist current ((p :: ps).getD (findBestAux (dist current) ps 1 (0, dist current p)).1 p)
    rcases HA with h | ⟨k, hk, h1, h2⟩
    · rw [h]
      simp
    · rw [h1, Nat.add_comm 1 k, List.getD_cons_succ]
      exact h2 p
  · intro i hi
    cases i with
    | zero =>
      rw [List.getD_cons_zero]
      exact HB
    | succ i' =>
      rw [List.getD_cons_succ]
      exact HC i' p (by simp only [List.length_cons] at hi; omega)
  · intro i hi
    have hi2 : i < (findBestAux (dist current) ps 1 (0, dist current p)).1 := hi
    have hidx2 : (findBestAux (dist current) ps 1 (0, dist current p)).1 < ps.length + 1 :=
      hidx
    cases i with
    | zero =>
      rw [List.getD_cons_zero]
      apply HD
      show (findBestAux (dist current) ps 1 (0, dist current p)).1 ≠ 0
      omega
    | succ i' =>
      rw [List.getD_cons_succ]
      exact HE i' p (by omega) (by omega)
  · intro h
    simp only [routeGo]
    rw [if_neg h]

theorem greedyStableSelection_witness :
    (findBest ((fun a b : ℚ => (b - a) * (b - a)) 0) 2 [1, 1, 3]).1 < 4 ∧
    (∀ i : Nat, i < (findBest ((fun a b : ℚ => (b - a) * (b - a)) 0) 2 [1, 1, 3]).1 →
      (findBest ((fun a b : ℚ => (b - a) * (b - a)) 0) 2 [1, 1, 3]).2 <
        (fun a b : ℚ => (b - a) * (b - a)) 0 (([2, 1, 1, 3] : List ℚ).getD i 2)) ∧
    routeGo (fun a b : ℚ => (b - a) * (b - a)) 100 4 [2, 1, 1, 3] 0 0 [] =
      routeGo (fun a b : ℚ => (b - a) * (b - a)) 100 3
        (([2, 1, 1, 3] : List ℚ).eraseIdx
          (findBest ((fun a b : ℚ => (b - a) * (b - a)) 0) 2 [1, 1, 3]).1)
        (([2, 1, 1, 3] : List ℚ).getD
          (findBest ((fun a b : ℚ => (b - a) * (b - a)) 0) 2 [1, 1, 3]).1 2)
        (0 + (findBest ((fun a b : ℚ => (b - a) * (b - a)) 0) 2 [1, 1, 3]).2)
        ([] ++ [([2, 1, 1, 3] : List ℚ).getD
          (findBest ((fun a b : ℚ => (b - a) * (b - a)) 0) 2 [1, 1, 3]).1 2]) := by
  have h := greedyStableSelection (fun a b : ℚ => (b - a) * (b - a)) 100 3 0 0 [] 2 [1, 1, 3]
  exact ⟨h.1, h.2.2.2.1, h.2.2.2.2 (by norm_num [findBest, findBestAux])⟩

lemma getD_cons_eraseIdx_perm {P : Type} :
    ∀ (l : List P) (j : Nat), j < l.length → ∀ x : P,
      (l.getD j x :: l.eraseIdx j).Perm l := by
  intro l
  induction l with
  | nil =>
    intro j hj
    simp at hj
  | cons a l ih =>
    intro j hj x
    cases j with
    | zero =>
      simp only [List.getD_cons_zero, List.eraseIdx_cons_zero]
      exact List.Perm.refl _
    | succ j' =>
      simp only [List.getD_cons_succ, List.eraseIdx_cons_succ]
      have h1 : (l.getD j' x :: a :: l.eraseIdx j').Perm (a :: l.getD j' x :: l.eraseIdx j') :=
        List.Perm.swap a (l.getD j' x) _
      have h2 : (a :: l.getD j' x :: l.eraseIdx j').Perm (a :: l) :=
        (ih j' (by simp only [List.length_cons] at hj; omega) x).cons a
      exact h1.trans h2

lemma routeGo_route_subperm {P : Type} (dist : P → P → ℚ) (maxMeters : ℚ) :
    ∀ (fuel : Nat) (remaining : List P) (current : P) (used : ℚ) (route : List P),
      ∃ r : List P,
        (routeGo dist maxMeters fuel remaining current used route).1 = route ++ r ∧
        r.Subperm remaining := by
  intro fuel
  induction fuel with
  | zero =>
    intro remaining current used route
    refine ⟨[], ?_, List.nil_subperm⟩
    cases remaining <;> simp [routeGo]
  | succ n ih =>
    intro remaining current used route
    cases remaining with
    | nil => exact ⟨[], by simp [routeGo], List.nil_subperm⟩
    | cons p ps =>
      simp only [routeGo]
      by_cases hc : 0 < maxMeters ∧ used + (findBest (dist current) p ps).2 > maxMeters
      · rw [if_pos hc]
        exact ⟨[], by simp, List.nil_subperm⟩
      · rw [if_neg hc]
        obtain ⟨r, hr, hsub⟩ := ih ((p :: ps).eraseIdx (findBest (dist current) p ps).1)
          ((p :: ps).getD (findBest (dist current) p ps).1 p)
          (used + (findBest (dist current) p ps).2)
          (route ++ [(p :: ps).getD (findBest (dist current) p ps).1 p])
        refine ⟨(p :: ps).getD (findBest (dist current) p ps).1 p :: r, ?_, ?_⟩
        · rw [hr, List.append_assoc]
          rfl
        · have hperm := getD_cons_eraseIdx_perm (p :: ps)
            (findBest (dist current) p ps).1 (findBest_idx_lt (dist current) p ps) p
          exact ((List.subperm_cons _).mpr hsub).trans hperm.subperm

/-- C10: the built route is a sub-permutation of the candidate list: every
element of the route is a candidate, the route is never longer than the
candidate list, and when the candidates are pairwise distinct no candidate
appears in the route more than once. -/
theorem routeWithinCandidates {P : Type} (dist : P → P → ℚ) (origin : P)
    (points : List P) (maxMeters : ℚ) :
    (buildOptimizedRoute dist origin points maxMeters).1.Subperm points ∧
    (∀ x : P, x ∈ (buildOptimizedRoute dist origin points maxMeters).1 → x ∈ points) ∧
    (buildOptimizedRoute dist origin points maxMeters).1.length ≤ points.length ∧
    (points.Nodup → (buildOptimizedRoute dist origin points maxMeters).1.Nodup) := by
  obtain ⟨r, hr, hsub⟩ := routeGo_route_subperm dist maxMeters points.length points origin 0 []
  have hroute : (buildOptimizedRoute dist origin points maxMeters).1 = r := by
    show (routeGo dist maxMeters points.length points origin 0 []).1 = r
    rw [hr]
    simp
  rw [hroute]
  refine ⟨hsub, fun x hx => hsub.subset hx, hsub.length_le, fun hnd => ?_⟩
  obtain ⟨l', hperm, hsl⟩ := hsub
  exact hperm.nodup (hsl.nodup hnd)

theorem routeWithinCandidates_witness :
    (buildOptimizedRoute (fun a b : ℚ => (b - a) * (b - a)) 0 [2, 1, 3] 100).1.Subperm
      [2, 1, 3] ∧
    (buildOptimizedRoute (fun a b : ℚ => (b - a) * (b - a)) 0 [2, 1, 3] 100).1.Nodup :=
  ⟨(routeWithinCandidates (fun a b : ℚ => (b - a) * (b - a)) 0 [2, 1, 3] 100).1,
   (routeWithinCandidates (fun a b : ℚ => (b - a) * (b - a)) 0 [2, 1, 3] 100).2.2.2
     (by norm_num)⟩

end Falleando
